import Mathlib

/-!
Shallow embedding of the duties-checking engine of `dappnode/validator-tracker`
(Go sources under `internal/application/services` and `cmd`), together with
proofs of the spec's claims about it.

Conventions of the embedding:
* The Go `uint64` domain aliases (`domain.Epoch`, `domain.Slot`,
  `domain.ValidatorIndex`, `domain.CommitteeIndex`) all become `Nat`
  (no arithmetic here ever wraps).
* Go `[]byte` bitfields become `List Nat` (each entry a byte value).
* Go maps become association lists with the zero-value-on-missing-key lookup
  that Go map indexing has, or an `→ Option` function where the code uses the
  `value, ok := m[k]` form.
* A fallible provider call `f(...) (T, error)` becomes an oracle argument of
  type `... → Option T` (`none` = the call returned an error).
* `domain.CommitteeSizeMap` is `map[CommitteeIndex]int` in Go; its values are
  committee sizes produced as `len(committee.Validators)` by the beacon
  adapter, hence never negative, and are embedded as `Nat`.
-/

/-- `domain.ValidatorDuty`. -/
structure ValidatorDuty where
  slot : Nat
  committeeIndex : Nat
  validatorCommitteeIdx : Nat
  validatorIndex : Nat
  deriving DecidableEq, Repr

/-- `domain.Attestation`: `DataSlot`, `CommitteeBits []byte`, `AggregationBits []byte`. -/
structure Attestation where
  dataSlot : Nat
  committeeBits : List Nat
  aggregationBits : List Nat
  deriving DecidableEq, Repr

/-- `domain.ProposerDuty`. -/
structure ProposerDuty where
  slot : Nat
  validatorIndex : Nat
  deriving DecidableEq, Repr

/-- `domain.CommitteeSizeMap = map[CommitteeIndex]int`, as an association list. -/
abbrev CommitteeSizeMap := List (Nat × Nat)

/-- Go map indexing `m[k]` on a `CommitteeSizeMap`: the stored value, or the
zero value `0` when the key is absent. -/
def sizeGet (m : CommitteeSizeMap) (k : Nat) : Nat :=
  match m.find? (fun p => p.1 == k) with
  | some p => p.2
  | none => 0

/-- `isBitSet` (dutieschecker): bit `index` of the little-endian packed byte
array `bits`; out-of-range byte index yields `false`.

    byteIndex := index / 8
    bitIndex := index % 8
    if byteIndex >= len(bits) { return false }
    return (bits[byteIndex] & (1 << uint(bitIndex))) != 0 -/
def isBitSet (bits : List Nat) (index : Nat) : Bool :=
  if index / 8 ≥ bits.length then false
  else (bits.getD (index / 8) 0) &&& (1 <<< (index % 8)) != 0

/-- The `for i := 0; i < 64; i++` loop body of `computeBitPosition`, recursing
over the remaining loop indices: `continue` when committee bit `i` is unset,
`break` when `i` reaches the validator's committee, otherwise add the
committee's size and keep going. -/
def computeBitPositionLoop (validatorCommitteeIndex : Nat)
    (committeeBits : List Nat) (committeeSizeMap : CommitteeSizeMap) :
    List Nat → Nat
  | [] => 0
  | i :: rest =>
    if !isBitSet committeeBits i then
      computeBitPositionLoop validatorCommitteeIndex committeeBits committeeSizeMap rest
    else if i = validatorCommitteeIndex then 0
    else sizeGet committeeSizeMap i +
      computeBitPositionLoop validatorCommitteeIndex committeeBits committeeSizeMap rest

/-- `computeBitPosition` (dutieschecker): sum the sizes of the committees that
are flagged in `committeeBits` and come before the validator's committee, then
add the validator's index inside its committee. -/
def computeBitPosition (validatorCommitteeIndex : Nat)
    (validatorIndexInCommittee : Nat) (committeeBits : List Nat)
    (committeeSizeMap : CommitteeSizeMap) : Nat :=
  computeBitPositionLoop validatorCommitteeIndex committeeBits committeeSizeMap
      (List.range 64) +
    validatorIndexInCommittee

/-- The offset formula as the spec writes it:
`Σ committeeSize[i] for i in [0, 64) where i < duty.committeeIndex AND
bitSet(committeeBits, i)`, plus `duty.positionInCommittee`. -/
def specOffset (validatorCommitteeIndex : Nat)
    (validatorIndexInCommittee : Nat) (committeeBits : List Nat)
    (committeeSizeMap : CommitteeSizeMap) : Nat :=
  (((List.range 64).filter
        (fun i => decide (i < validatorCommitteeIndex) && isBitSet committeeBits i)).map
      (sizeGet committeeSizeMap)).sum +
    validatorIndexInCommittee

/-- The body of the attestation loop in `checkDutyAttestation`: the three
`continue` guards, as one conjunction. An attestation matches the duty when
its data slot is the duty's slot, its committee bits flag the duty's
committee, and its aggregation bits contain the computed bit position. -/
def attMatches (duty : ValidatorDuty) (m : CommitteeSizeMap) (att : Attestation) : Bool :=
  att.dataSlot == duty.slot &&
    isBitSet att.committeeBits duty.committeeIndex &&
    isBitSet att.aggregationBits
      (computeBitPosition duty.committeeIndex duty.validatorCommitteeIdx
        att.committeeBits m)

/-- The `for slot := duty.Slot + 1; slot <= duty.Slot+32` loop of
`checkDutyAttestation`, over the remaining slots: return `true` on the first
slot holding a matching attestation (the inner `for _, att` loop with its
early `return true` is `List.any`), else keep scanning. -/
def scanSlotsLoop (duty : ValidatorDuty) (slotAtts : Nat → List Attestation)
    (m : CommitteeSizeMap) : List Nat → Bool
  | [] => false
  | s :: rest =>
    if (slotAtts s).any (attMatches duty m) then true
    else scanSlotsLoop duty slotAtts m rest

/-- The inclusion window of a duty: slots `duty.slot + 1 .. duty.slot + 32`. -/
def dutyWindow (duty : ValidatorDuty) : List Nat :=
  List.range' (duty.slot + 1) 32

/-- `checkDutyAttestation` (dutieschecker): look up the committee-size map for
the duty's slot in the per-cycle cache, fetching (and caching) it on a miss; a
fetch error yields `false` at once; otherwise scan the duty's 32-slot window.
Returns the verdict together with the updated cache. -/
def checkDutyAttestation (duty : ValidatorDuty) (slotAtts : Nat → List Attestation)
    (cache : List (Nat × CommitteeSizeMap))
    (fetchSizes : Nat → Option CommitteeSizeMap) :
    Bool × List (Nat × CommitteeSizeMap) :=
  match cache.find? (fun p => p.1 == duty.slot) with
  | some p => (scanSlotsLoop duty slotAtts p.2 (dutyWindow duty), cache)
  | none =>
    match fetchSizes duty.slot with
    | none => (false, cache)
    | some m => (scanSlotsLoop duty slotAtts m (dutyWindow duty), (duty.slot, m) :: cache)

/-- `getSlotRangeForDuties`: minimum and maximum duty slot. The Go function
assumes a non-empty list (it reads `duties[0]`); the `[]` case is unreachable
from the embedded callers and returns `(0, 0)`. -/
def getSlotRangeForDuties : List ValidatorDuty → Nat × Nat
  | [] => (0, 0)
  | d :: rest =>
    (d :: rest).foldl (fun mm d' => (min mm.1 d'.slot, max mm.2 d'.slot))
      (d.slot, d.slot)

/-- `preloadSlotAttestations`: fetch the attestations of every slot in
`[minSlot + 1, maxSlot + 32]`, skipping (= leaving out of the map) the slots
whose fetch errors. -/
def preloadSlotAttestationsList (fetchAtts : Nat → Option (List Attestation))
    (minSlot maxSlot : Nat) : List (Nat × List Attestation) :=
  (List.range' (minSlot + 1) (maxSlot + 32 - minSlot)).foldr
    (fun slot acc =>
      match fetchAtts slot with
      | none => acc
      | some att => (slot, att) :: acc)
    []

/-- Go map indexing `slotAttestations[slot]`: the stored list, or the zero
value `nil` (= `[]`) for a slot that is absent (e.g. because its fetch
errored). -/
def slotAttsLookup (mp : List (Nat × List Attestation)) (s : Nat) : List Attestation :=
  match mp.find? (fun p => p.1 == s) with
  | some p => p.2
  | none => []

/-- The `for _, duty := range duties` loop of `checkAttestations`: evaluate
each duty (threading the committee-size cache) and mark the duty's validator
as checked for the epoch via `markCheckedThisEpoch` — the marking is
unconditional in the source, whatever `checkDutyAttestation` returned.
`CheckedEpochs` is embedded as a function `Nat → Option Nat`. -/
def checkAttestationsLoop (epoch : Nat) (slotAtts : Nat → List Attestation)
    (fetchSizes : Nat → Option CommitteeSizeMap) :
    List ValidatorDuty → List (Nat × CommitteeSizeMap) →
      (Nat → Option Nat) → (Nat → Option Nat)
  | [], _, checked => checked
  | duty :: rest, cache, checked =>
    let res := checkDutyAttestation duty slotAtts cache fetchSizes
    checkAttestationsLoop epoch slotAtts fetchSizes rest res.2
      (fun i => if i = duty.validatorIndex then some epoch else checked i)

/-- `checkAttestations` (dutieschecker): fetch the duties batch (an error or
an empty batch returns with no state change), preload the slot attestations
over the duties' slot range, then run the per-duty loop with a fresh
committee-size cache. -/
def checkAttestations (epoch : Nat) (dutiesRes : Option (List ValidatorDuty))
    (fetchAtts : Nat → Option (List Attestation))
    (fetchSizes : Nat → Option CommitteeSizeMap)
    (checked : Nat → Option Nat) : Nat → Option Nat :=
  match dutiesRes with
  | none => checked
  | some duties =>
    if duties.length = 0 then checked
    else
      let mm := getSlotRangeForDuties duties
      checkAttestationsLoop epoch
        (slotAttsLookup (preloadSlotAttestationsList fetchAtts mm.1 mm.2))
        fetchSizes duties [] checked

/-- The mutable fields of the notification `DutiesChecker` (justified-epoch
service): `lastJustifiedEpoch`, `lastRunHadError`, `SlashedNotified` (as a
list of indices), `PreviouslyAllLive`, `PreviouslyOffline`. -/
structure EngineState where
  lastJustifiedEpoch : Nat
  lastRunHadError : Bool
  slashedNotified : List Nat
  previouslyAllLive : Bool
  previouslyOffline : Bool
  deriving DecidableEq, Repr

/-- One notifier call: `SendValidatorLivenessNot`, `SendBlockProposalNot`, or
`SendValidatorsSlashedNot`, with its arguments. -/
inductive Alert where
  | livenessNot (indices : List Nat) (epoch : Nat) (allLive : Bool)
  | proposalNot (indices : List Nat) (epoch : Nat) (proposed : Bool)
  | slashedNot (indices : List Nat) (epoch : Nat)
  deriving DecidableEq, Repr

/-- The provider responses one `performChecks` cycle consumes, `none`
standing for a call that returned an error. The three Booleans are the
`notificationsEnabled` map entries for the liveness, proposal and slashed
kinds (a failed `GetNotificationsEnabled` is the all-`false` case). -/
structure CycleInputs where
  livenessEnabled : Bool
  proposalEnabled : Bool
  slashedEnabled : Bool
  pubkeys : Option (List String)
  indicesRes : Option (List Nat)
  livenessRes : Option (Nat → Option Bool)
  proposerDutiesRes : Option (List ProposerDuty)
  didPropose : Nat → Option Bool
  slashedRes : Option (List Nat)

/-- The `for _, idx := range indices` loop of `checkLiveness`: partition into
offline and online (an index the liveness map lacks counts as offline) and
clear `allLive` whenever an offline index is seen. -/
def checkLivenessLoop (livenessMap : Nat → Option Bool) :
    List Nat →
      List Nat × List Nat × Bool
  | [] => ([], [], true)
  | idx :: rest =>
    let r := checkLivenessLoop livenessMap rest
    match livenessMap idx with
    | some true => (r.1, idx :: r.2.1, r.2.2)
    | _ => (idx :: r.1, r.2.1, false)

/-- `checkLiveness` (justified-epoch service) with the liveness map already
fetched: empty input returns `(nil, nil, false)` as in the source. -/
def checkLiveness (indices : List Nat)
    (livenessMap : Nat → Option Bool) :
    List Nat × List Nat × Bool :=
  if indices.length = 0 then ([], [], false)
  else checkLivenessLoop livenessMap indices

/-- The two liveness-notification `if` blocks of `performChecks`, run in
source order on the `PreviouslyAllLive` / `PreviouslyOffline` flags. Returns
the updated flags and the alerts sent (none when the liveness alert kind is
disabled, though the flags still advance). -/
def livenessNotify (previouslyAllLive previouslyOffline enabled : Bool)
    (offline : List Nat) (allLive : Bool)
    (indices : List Nat) (epoch : Nat) :
    Bool × Bool × List Alert :=
  let r1 :=
    if offline.length > 0 && previouslyAllLive then
      (false, true, if enabled then [Alert.livenessNot offline epoch false] else [])
    else (previouslyAllLive, previouslyOffline, ([] : List Alert))
  if allLive && r1.2.1 then
    (true, false, r1.2.2 ++ if enabled then [Alert.livenessNot indices epoch true] else [])
  else r1

/-- The `for _, duty := range proposerDuties` loop of `checkProposals`
(justified-epoch service): a `DidProposeBlock` error skips the duty, success
appends the validator to `proposed` or `missed`. -/
def checkProposalsLoop (didPropose : Nat → Option Bool) :
    List ProposerDuty → List Nat × List Nat
  | [] => ([], [])
  | duty :: rest =>
    let r := checkProposalsLoop didPropose rest
    match didPropose duty.slot with
    | none => r
    | some true => (duty.validatorIndex :: r.1, r.2)
    | some false => (r.1, duty.validatorIndex :: r.2)

/-- The slashed-notification filter of `performChecks`: collect the slashed
indices not yet in `SlashedNotified`, inserting each into the set as it is
collected. Returns `(toNotify, the grown set)`. -/
def notifySlashed (notified : List Nat) :
    List Nat → List Nat × List Nat
  | [] => ([], notified)
  | idx :: rest =>
    if idx ∈ notified then notifySlashed notified rest
    else
      let r := notifySlashed (idx :: notified) rest
      (idx :: r.1, r.2)

/-- `performChecks` (justified-epoch service): the cycle body. Returns
whether it ended in error (Go: a non-nil `error`), the engine state as
mutated so far, and the alerts sent, following the source's sequence:
pubkeys, indices, liveness (with the two notification blocks), proposals,
slashed. -/
def performChecks (st : EngineState) (epoch : Nat) (inp : CycleInputs) :
    Bool × EngineState × List Alert :=
  match inp.pubkeys with
  | none => (true, st, [])
  | some pubkeys =>
    if pubkeys.length = 0 then (false, st, [])
    else
      match inp.indicesRes with
      | none => (true, st, [])
      | some indices =>
        if indices.length = 0 then (false, st, [])
        else
          match inp.livenessRes with
          | none => (true, st, [])
          | some livenessMap =>
            let live := checkLiveness indices livenessMap
            let ln := livenessNotify st.previouslyAllLive st.previouslyOffline
              inp.livenessEnabled live.1 live.2.2 indices epoch
            let st1 := { st with previouslyAllLive := ln.1, previouslyOffline := ln.2.1 }
            match inp.proposerDutiesRes with
            | none => (true, st1, ln.2.2)
            | some proposerDuties =>
              let pm :=
                if proposerDuties.length = 0 then ([], [])
                else checkProposalsLoop inp.didPropose proposerDuties
              let alertsP :=
                (if pm.1.length > 0 && inp.proposalEnabled then
                    [Alert.proposalNot pm.1 epoch true] else []) ++
                (if pm.2.length > 0 && inp.proposalEnabled then
                    [Alert.proposalNot pm.2 epoch false] else [])
              match inp.slashedRes with
              | none => (true, st1, ln.2.2 ++ alertsP)
              | some slashed =>
                let ns := notifySlashed st1.slashedNotified slashed
                let st2 := { st1 with slashedNotified := ns.2 }
                let alertsS :=
                  if ns.1.length > 0 && inp.slashedEnabled then
                    [Alert.slashedNot ns.1 epoch] else []
                (false, st2, ln.2.2 ++ alertsP ++ alertsS)

/-- One `ticker.C` iteration of `Run` (justified-epoch service): an epoch
fetch error only sets `lastRunHadError`; an unchanged epoch after an
error-free run is skipped; otherwise `lastJustifiedEpoch` is stored and
`performChecks` runs, its error verdict becoming the new
`lastRunHadError`. -/
def runTick (st : EngineState) (epochRes : Option Nat) (inp : CycleInputs) :
    EngineState × List Alert :=
  match epochRes with
  | none => ({ st with lastRunHadError := true }, [])
  | some e =>
    if e = st.lastJustifiedEpoch ∧ st.lastRunHadError = false then (st, [])
    else
      let st' := { st with lastJustifiedEpoch := e }
      let r := performChecks st' e inp
      ({ r.2.1 with lastRunHadError := r.1 }, r.2.2)

/-- Repeated slashing cycles: thread `SlashedNotified` through the
per-cycle `notifySlashed` filter, collecting each cycle's alert payload. -/
def runSlashingCycles (notified : List Nat) :
    List (List Nat) →
      List (List Nat) × List Nat
  | [] => ([], notified)
  | slashed :: rest =>
    let c := notifySlashed notified slashed
    let r := runSlashingCycles c.2 rest
    (c.1 :: r.1, r.2)

theorem computeBitPositionLoop_of_mem (vci : Nat) (bits : List Nat)
    (m : CommitteeSizeMap) (hset : isBitSet bits vci = true) :
    ∀ l : List Nat, l.Pairwise (· < ·) → vci ∈ l →
      computeBitPositionLoop vci bits m l =
        ((l.filter (fun i => decide (i < vci) && isBitSet bits i)).map (sizeGet m)).sum := by
  intro l
  induction l with
  | nil => intro _ hmem; cases hmem
  | cons i rest ih =>
    intro hpw hmem
    have hlt : ∀ j ∈ rest, i < j := (List.pairwise_cons.mp hpw).1
    have hpw' : rest.Pairwise (· < ·) := (List.pairwise_cons.mp hpw).2
    rcases List.mem_cons.mp hmem with hvi | hvrest
    · subst hvi
      have hrest : rest.filter (fun j => decide (j < vci) && isBitSet bits j) = [] := by
        apply List.filter_eq_nil_iff.mpr
        intro j hj
        have hij : vci < j := hlt j hj
        simp [Nat.not_lt.mpr (Nat.le_of_lt hij)]
      simp [computeBitPositionLoop, hset, hrest]
    · have hivc : i < vci := hlt vci hvrest
      have hne : i ≠ vci := Nat.ne_of_lt hivc
      cases hbit : isBitSet bits i with
      | false =>
        simp only [computeBitPositionLoop, hbit, Bool.not_false, if_pos rfl]
        rw [ih hpw' hvrest]
        simp [List.filter_cons, hbit]
      | true =>
        simp only [computeBitPositionLoop, hbit, Bool.not_true]
        rw [if_neg (by simp), if_neg hne, ih hpw' hvrest]
        simp [List.filter_cons, hbit, hivc]

theorem computeBitPositionLoop_of_all_lt (vci : Nat) (bits : List Nat)
    (m : CommitteeSizeMap) :
    ∀ l : List Nat, (∀ j ∈ l, j < vci) →
      computeBitPositionLoop vci bits m l =
        ((l.filter (fun i => decide (i < vci) && isBitSet bits i)).map (sizeGet m)).sum := by
  intro l
  induction l with
  | nil => intro _; rfl
  | cons i rest ih =>
    intro hall
    have hivc : i < vci := hall i (List.mem_cons_self i rest)
    have hne : i ≠ vci := Nat.ne_of_lt hivc
    have hrest : ∀ j ∈ rest, j < vci := fun j hj => hall j (List.mem_cons_of_mem i hj)
    cases hbit : isBitSet bits i with
    | false =>
      simp only [computeBitPositionLoop, hbit, Bool.not_false, if_pos rfl]
      rw [ih hrest]
      simp [List.filter_cons, hbit]
    | true =>
      simp only [computeBitPositionLoop, hbit, Bool.not_true]
      rw [if_neg (by simp), if_neg hne, ih hrest]
      simp [List.filter_cons, hbit, hivc]

/-- C1: for an attestation whose `committeeBits` flags the duty's committee,
`computeBitPosition` equals the sum of `committeeSize[i]` over exactly those
committee indices `i ∈ [0, 64)` that are strictly below the duty's committee
index and set in `committeeBits`, plus the validator's position in its
committee. -/
theorem computeBitPosition_eq_specOffset (vci : Nat) (pos : Nat)
    (bits : List Nat) (m : CommitteeSizeMap) (hset : isBitSet bits vci = true) :
    computeBitPosition vci pos bits m = specOffset vci pos bits m := by
  unfold computeBitPosition specOffset
  congr 1
  by_cases h64 : vci < 64
  · exact computeBitPositionLoop_of_mem vci bits m hset (List.range 64)
      (List.pairwise_lt_range 64) (List.mem_range.mpr h64)
  · exact computeBitPositionLoop_of_all_lt vci bits m (List.range 64)
      (fun j hj => Nat.lt_of_lt_of_le (List.mem_range.mp hj) (Nat.le_of_not_lt h64))

/-- C1 witness: the spec's concrete example — committeeBits with bits {1,3}
set (byte `0b1010 = 10`), sizes {0↦10, 1↦20, 2↦5, 3↦7}, committeeIndex 3,
positionInCommittee 2 — gives offset 22, and the general theorem applies. -/
theorem computeBitPosition_eq_specOffset_witness :
    isBitSet [10] 3 = true ∧
      computeBitPosition 3 2 [10] [(0, 10), (1, 20), (2, 5), (3, 7)] =
        specOffset 3 2 [10] [(0, 10), (1, 20), (2, 5), (3, 7)] ∧
      computeBitPosition 3 2 [10] [(0, 10), (1, 20), (2, 5), (3, 7)] = 22 :=
  ⟨by decide,
    computeBitPosition_eq_specOffset 3 2 [10] [(0, 10), (1, 20), (2, 5), (3, 7)]
      (by decide),
    by decide⟩

theorem and_one_shiftLeft_ne_zero (x b : Nat) :
    (x &&& (1 <<< b) != 0) = (((x >>> b) &&& 1) == 1) := by
  rw [Nat.one_shiftLeft, Nat.and_two_pow, Nat.shiftRight_eq_div_pow, Nat.and_one_is_mod]
  cases htb : x.testBit b with
  | false =>
    have hmod : ¬x / 2 ^ b % 2 = 1 := by
      have h := Nat.testBit_to_div_mod (x := x) (i := b)
      rw [htb] at h
      exact of_decide_eq_false h.symm
    simp [hmod]
  | true =>
    have hmod : x / 2 ^ b % 2 = 1 := by
      have h := Nat.testBit_to_div_mod (x := x) (i := b)
      rw [htb] at h
      exact of_decide_eq_true h.symm
    simp [hmod]

/-- C3: for an in-range index, `isBitSet B i` reads bit `i % 8` (from the
least-significant bit) of byte `B[i / 8]`, i.e. equals `(B[i/8] >> (i%8)) & 1`;
for a byte index at or past the end it returns `false` instead of failing. -/
theorem isBitSet_spec (B : List Nat) (i : Nat) :
    (i < 8 * B.length →
        isBitSet B i = (((B.getD (i / 8) 0) >>> (i % 8)) &&& 1 == 1)) ∧
      (B.length ≤ i / 8 → isBitSet B i = false) := by
  constructor
  · intro h
    have hlt : i / 8 < B.length := by
      rw [Nat.div_lt_iff_lt_mul (by norm_num)]
      omega
    unfold isBitSet
    rw [if_neg (Nat.not_le.mpr hlt)]
    exact and_one_shiftLeft_ne_zero _ _
  · intro h
    unfold isBitSet
    rw [if_pos h]

/-- C3 witness: byte array `[2]`: bit 1 is set and matches the shift/mask
formula; index 20 is out of range (byte index 2 ≥ length 1) and yields
`false`. -/
theorem isBitSet_spec_witness :
    ((1 : Nat) < 8 * [(2 : Nat)].length ∧
        isBitSet [2] 1 = ((List.getD [2] (1 / 8) 0 >>> (1 % 8)) &&& 1 == 1)) ∧
      ([(2 : Nat)].length ≤ 20 / 8 ∧ isBitSet [2] 20 = false) :=
  ⟨⟨by decide, (isBitSet_spec [2] 1).1 (by decide)⟩,
    ⟨by decide, (isBitSet_spec [2] 20).2 (by decide)⟩⟩

theorem computeBitPositionLoop_congr (vci : Nat) (bits bits' : List Nat)
    (m : CommitteeSizeMap) :
    ∀ l : List Nat, (∀ i ∈ l, isBitSet bits i = isBitSet bits' i) →
      computeBitPositionLoop vci bits m l = computeBitPositionLoop vci bits' m l := by
  intro l
  induction l with
  | nil => intro _; rfl
  | cons i rest ih =>
    intro hall
    have hi : isBitSet bits i = isBitSet bits' i := hall i (List.mem_cons_self i rest)
    have hrest := fun j hj => hall j (List.mem_cons_of_mem i hj)
    unfold computeBitPositionLoop
    rw [← hi, ih hrest]

/-- C10: `computeBitPosition` is total and safe: it inspects only committee
indices 0..63 of `committeeBits` (two bitfields agreeing on bits 0..63 give
the same offset), a committee index absent from the size map contributes the
Go zero value 0 via map lookup rather than an error, and the offset is always
at least the validator's position in its committee. -/
theorem computeBitPosition_safe (vci : Nat) (pos : Nat)
    (bits bits' : List Nat) (m : CommitteeSizeMap) (k : Nat) :
    ((∀ i, i < 64 → isBitSet bits i = isBitSet bits' i) →
        computeBitPosition vci pos bits m = computeBitPosition vci pos bits' m) ∧
      ((∀ p ∈ m, p.1 ≠ k) → sizeGet m k = 0) ∧
      pos ≤ computeBitPosition vci pos bits m := by
  refine ⟨?_, ?_, ?_⟩
  · intro h
    unfold computeBitPosition
    congr 1
    exact computeBitPositionLoop_congr vci bits bits' m (List.range 64)
      (fun i hi => h i (List.mem_range.mp hi))
  · intro h
    unfold sizeGet
    have hnone : m.find? (fun p => p.1 == k) = none := by
      apply List.find?_eq_none.mpr
      intro p hp
      simpa using h p hp
    rw [hnone]
  · unfold computeBitPosition
    exact Nat.le_add_left pos _

/-- C10 witness: `[3, 0]` and `[3]` agree on bits 0..63 and give the same
offset; key 7 is absent from `[(0, 5)]` and looks up to 0; the offset for
position 4 is at least 4. -/
theorem computeBitPosition_safe_witness :
    computeBitPosition 1 4 [3, 0] [(0, 5)] = computeBitPosition 1 4 [3] [(0, 5)] ∧
      sizeGet [(0, 5)] 7 = 0 ∧
      4 ≤ computeBitPosition 1 4 [3, 0] [(0, 5)] :=
  ⟨(computeBitPosition_safe 1 4 [3, 0] [3] [(0, 5)] 7).1 (by decide),
    (computeBitPosition_safe 1 4 [3, 0] [3] [(0, 5)] 7).2.1 (by decide),
    (computeBitPosition_safe 1 4 [3, 0] [3] [(0, 5)] 7).2.2⟩

theorem attMatches_eq_true (duty : ValidatorDuty) (m : CommitteeSizeMap)
    (att : Attestation) :
    attMatches duty m att = true ↔
      att.dataSlot = duty.slot ∧
        isBitSet att.committeeBits duty.committeeIndex = true ∧
        isBitSet att.aggregationBits
          (computeBitPosition duty.committeeIndex duty.validatorCommitteeIdx
            att.committeeBits m) = true := by
  simp [attMatches, Bool.and_eq_true, and_assoc]

theorem scanSlotsLoop_eq_true (duty : ValidatorDuty)
    (slotAtts : Nat → List Attestation) (m : CommitteeSizeMap) :
    ∀ l : List Nat,
      scanSlotsLoop duty slotAtts m l = true ↔
        ∃ s ∈ l, ∃ att ∈ slotAtts s, attMatches duty m att = true := by
  intro l
  induction l with
  | nil => simp [scanSlotsLoop]
  | cons s rest ih =>
    simp only [scanSlotsLoop]
    by_cases h : (slotAtts s).any (attMatches duty m) = true
    · rcases List.any_eq_true.mp h with ⟨att, hmem, hatt⟩
      rw [if_pos h]
      exact iff_of_true rfl ⟨s, List.mem_cons_self s rest, att, hmem, hatt⟩
    · rw [if_neg h, ih]
      constructor
      · rintro ⟨s', hs', att, hmem, hatt⟩
        exact ⟨s', List.mem_cons_of_mem s hs', att, hmem, hatt⟩
      · rintro ⟨s', hs', att, hmem, hatt⟩
        rcases List.mem_cons.mp hs' with rfl | hs'
        · exact absurd (List.any_eq_true.mpr ⟨att, hmem, hatt⟩) h
        · exact ⟨s', hs', att, hmem, hatt⟩

theorem checkDutyAttestation_fst_of_avail (duty : ValidatorDuty)
    (slotAtts : Nat → List Attestation) (cache : List (Nat × CommitteeSizeMap))
    (fetchSizes : Nat → Option CommitteeSizeMap) (m : CommitteeSizeMap)
    (h : cache.find? (fun p => p.1 == duty.slot) = some (duty.slot, m) ∨
      (cache.find? (fun p => p.1 == duty.slot) = none ∧
        fetchSizes duty.slot = some m)) :
    (checkDutyAttestation duty slotAtts cache fetchSizes).1 =
      scanSlotsLoop duty slotAtts m (dutyWindow duty) := by
  unfold checkDutyAttestation
  rcases h with h | ⟨h1, h2⟩
  · rw [h]
  · rw [h1, h2]

/-- C2: with the committee-size map for the duty's slot available (cached, or
fetched successfully on a miss), `checkDutyAttestation` answers `true` iff
some slot of the window `[duty.slot+1, duty.slot+32]` holds an attestation
with the duty's data slot, the duty's committee bit set, and the computed
aggregation bit set — so with no such attestation anywhere the verdict is
"missed", never "attested"; and once a match exists at a slot, nothing at any
later slot can change the verdict (first match wins). -/
theorem checkDutyAttestation_spec (duty : ValidatorDuty)
    (slotAtts : Nat → List Attestation) (cache : List (Nat × CommitteeSizeMap))
    (fetchSizes : Nat → Option CommitteeSizeMap) (m : CommitteeSizeMap)
    (h : cache.find? (fun p => p.1 == duty.slot) = some (duty.slot, m) ∨
      (cache.find? (fun p => p.1 == duty.slot) = none ∧
        fetchSizes duty.slot = some m)) :
    ((checkDutyAttestation duty slotAtts cache fetchSizes).1 = true ↔
        ∃ s, duty.slot + 1 ≤ s ∧ s ≤ duty.slot + 32 ∧
          ∃ att ∈ slotAtts s,
            att.dataSlot = duty.slot ∧
              isBitSet att.committeeBits duty.committeeIndex = true ∧
              isBitSet att.aggregationBits
                (computeBitPosition duty.committeeIndex duty.validatorCommitteeIdx
                  att.committeeBits m) = true) ∧
      (∀ s₀, duty.slot + 1 ≤ s₀ → s₀ ≤ duty.slot + 32 →
        (∃ att ∈ slotAtts s₀, attMatches duty m att = true) →
        ∀ g : Nat → List Attestation, (∀ s, s ≤ s₀ → g s = slotAtts s) →
          (checkDutyAttestation duty g cache fetchSizes).1 = true) := by
  constructor
  · rw [checkDutyAttestation_fst_of_avail duty slotAtts cache fetchSizes m h,
      scanSlotsLoop_eq_true]
    constructor
    · rintro ⟨s, hs, att, hmem, hatt⟩
      have hw := List.mem_range'_1.mp hs
      obtain ⟨h1, h2, h3⟩ := (attMatches_eq_true duty m att).mp hatt
      refine ⟨s, hw.1, ?_, att, hmem, h1, h2, h3⟩
      omega
    · rintro ⟨s, hs1, hs2, att, hmem, h1, h2, h3⟩
      refine ⟨s, ?_, att, hmem, (attMatches_eq_true duty m att).mpr ⟨h1, h2, h3⟩⟩
      exact List.mem_range'_1.mpr ⟨hs1, by omega⟩
  · rintro s₀ hs1 hs2 ⟨att, hmem, hatt⟩ g hg
    rw [checkDutyAttestation_fst_of_avail duty g cache fetchSizes m h,
      scanSlotsLoop_eq_true]
    refine ⟨s₀, List.mem_range'_1.mpr ⟨hs1, by omega⟩, att, ?_, hatt⟩
    rw [hg s₀ (Nat.le_refl s₀)]
    exact hmem

/-- C2 witness: the spec's end-to-end scenario — duty slot 100, committee 2,
position 5, an attestation at slot 105 carrying the duty's committee bit and
aggregation bit 5 — is judged "attested". -/
theorem checkDutyAttestation_spec_witness :
    (checkDutyAttestation ⟨100, 2, 5, 1⟩
        (fun s => if s = 105 then [⟨100, [4], [32]⟩] else [])
        [(100, [(2, 9)])] (fun _ => none)).1 = true :=
  ((checkDutyAttestation_spec ⟨100, 2, 5, 1⟩
        (fun s => if s = 105 then [⟨100, [4], [32]⟩] else [])
        [(100, [(2, 9)])] (fun _ => none) [(2, 9)] (Or.inl (by decide))).1).mpr
    ⟨105, by decide, by decide, ⟨100, [4], [32]⟩, by decide, by decide, by decide,
      by decide⟩

theorem slotAttsLookup_build (fetchAtts : Nat → Option (List Attestation)) :
    ∀ (L : List Nat) (s : Nat),
      slotAttsLookup
          (L.foldr
            (fun slot acc =>
              match fetchAtts slot with
              | none => acc
              | some att => (slot, att) :: acc)
            []) s =
        if s ∈ L then (fetchAtts s).getD [] else [] := by
  intro L
  induction L with
  | nil => intro s; simp [slotAttsLookup]
  | cons a rest ih =>
    intro s
    simp only [List.foldr_cons]
    cases hfa : fetchAtts a with
    | none =>
      rw [ih s]
      by_cases hs : s = a
      · subst hs
        by_cases hr : s ∈ rest
        · simp [hr, List.mem_cons]
        · simp [hr, List.mem_cons, hfa]
      · simp [List.mem_cons, hs]
    | some att =>
      by_cases hs : s = a
      · subst hs
        simp [slotAttsLookup, List.find?_cons, hfa, List.mem_cons]
      · have hne : (a == s) = false := beq_eq_false_iff_ne.mpr (Ne.symm hs)
        unfold slotAttsLookup
        rw [List.find?_cons_of_neg _ (by simp [hne])]
        rw [show (match List.find? (fun p => p.1 == s)
            (List.foldr
              (fun slot acc =>
                match fetchAtts slot with
                | none => acc
                | some att => (slot, att) :: acc)
              [] rest) with
          | some p => p.2
          | none => []) = slotAttsLookup
            (List.foldr
              (fun slot acc =>
                match fetchAtts slot with
                | none => acc
                | some att => (slot, att) :: acc)
              [] rest) s from rfl]
        rw [ih s]
        simp [List.mem_cons, hs]

/-- C5 counterexample: with the committee-size fetch failing for the duty's
slot (and an empty cache), `checkDutyAttestation` answers "missed" at once,
even though the window does contain a matching attestation (here at slot 1,
whose offset under any size map — including the empty one — is 0): the fetch
error terminates the duty's evaluation early, contradicting the claim. -/
theorem checkDutyAttestation_sizeFetchError_counterexample :
    (checkDutyAttestation ⟨0, 0, 0, 11⟩
        (fun s => if s = 1 then [⟨0, [1], [1]⟩] else []) []
        (fun _ => none)).1 = false ∧
      scanSlotsLoop ⟨0, 0, 0, 11⟩
        (fun s => if s = 1 then [⟨0, [1], [1]⟩] else []) []
        (dutyWindow ⟨0, 0, 0, 11⟩) = true := by
  constructor
  · decide
  · decide

/-- C5 (amended): a fetch error for a single slot's attestations is swallowed
by the preload — the slot is left out of the map and looks up as "no
attestations there", every other slot of the preload range being served
normally; and when the committee-size map for the duty's slot is available
(cached or fetched), the duty is evaluated by scanning its whole 32-slot
window, so it is "missed" exactly when no match exists anywhere in the
window. A committee-size-map fetch error on a cache miss, however, classifies
the duty as "missed" immediately, without scanning any slot. -/
theorem fetchError_handling_spec :
    (∀ (fetchAtts : Nat → Option (List Attestation)) (lo hi s : Nat),
        slotAttsLookup (preloadSlotAttestationsList fetchAtts lo hi) s =
          if lo + 1 ≤ s ∧ s ≤ hi + 32 then (fetchAtts s).getD [] else []) ∧
      (∀ (duty : ValidatorDuty) (slotAtts : Nat → List Attestation)
          (cache : List (Nat × CommitteeSizeMap))
          (fetchSizes : Nat → Option CommitteeSizeMap),
          cache.find? (fun p => p.1 == duty.slot) = none →
          fetchSizes duty.slot = none →
          checkDutyAttestation duty slotAtts cache fetchSizes = (false, cache)) ∧
      (∀ (duty : ValidatorDuty) (slotAtts : Nat → List Attestation)
          (cache : List (Nat × CommitteeSizeMap))
          (fetchSizes : Nat → Option CommitteeSizeMap) (m : CommitteeSizeMap),
          (cache.find? (fun p => p.1 == duty.slot) = some (duty.slot, m) ∨
            (cache.find? (fun p => p.1 == duty.slot) = none ∧
              fetchSizes duty.slot = some m)) →
          (checkDutyAttestation duty slotAtts cache fetchSizes).1 =
            scanSlotsLoop duty slotAtts m (dutyWindow duty)) := by
  refine ⟨?_, ?_, ?_⟩
  · intro fetchAtts lo hi s
    unfold preloadSlotAttestationsList
    rw [slotAttsLookup_build]
    by_cases hmem : lo + 1 ≤ s ∧ s ≤ hi + 32
    · rw [if_pos (List.mem_range'_1.mpr ⟨hmem.1, by omega⟩), if_pos hmem]
    · rw [if_neg ?_, if_neg hmem]
      intro hc
      obtain ⟨h1, h2⟩ := List.mem_range'_1.mp hc
      exact hmem ⟨h1, by omega⟩
  · intro duty slotAtts cache fetchSizes h1 h2
    unfold checkDutyAttestation
    rw [h1, h2]
  · intro duty slotAtts cache fetchSizes m h
    exact checkDutyAttestation_fst_of_avail duty slotAtts cache fetchSizes m h

/-- C5 witness: a preload whose only failing slot is 3 serves slot 3 as
empty; an all-failing size fetcher makes a duty at slot 7 come back "missed"
with the cache untouched; a cached size map makes the verdict equal the pure
window scan. -/
theorem fetchError_handling_spec_witness :
    (slotAttsLookup
        (preloadSlotAttestationsList
          (fun s => if s = 3 then none else some [⟨3, [1], [1]⟩]) 2 2) 3 =
      if 2 + 1 ≤ 3 ∧ 3 ≤ 2 + 32 then
        ((fun s => if s = 3 then none else some [⟨3, [1], [1]⟩]) 3).getD []
      else []) ∧
      checkDutyAttestation ⟨7, 0, 0, 1⟩ (fun _ => []) [] (fun _ => none) =
        (false, []) ∧
      (checkDutyAttestation ⟨7, 0, 0, 1⟩ (fun _ => []) [(7, [(0, 5)])]
          (fun _ => none)).1 =
        scanSlotsLoop ⟨7, 0, 0, 1⟩ (fun _ => []) [(0, 5)]
          (dutyWindow ⟨7, 0, 0, 1⟩) :=
  ⟨fetchError_handling_spec.1 (fun s => if s = 3 then none else some [⟨3, [1], [1]⟩]) 2 2 3,
    fetchError_handling_spec.2.1 ⟨7, 0, 0, 1⟩ (fun _ => []) [] (fun _ => none)
      (by decide) rfl,
    fetchError_handling_spec.2.2 ⟨7, 0, 0, 1⟩ (fun _ => []) [(7, [(0, 5)])]
      (fun _ => none) [(0, 5)] (Or.inl (by decide))⟩

/-- C4 counterexample: every provider fetch fails for this cycle (no slot
attestations, no committee-size map), so the single duty's evaluation hits a
provider error and concludes `false` — yet `checkAttestations` still sets
validator 7's checkpoint to epoch 5, where it was previously unset: a
provider error does not leave the checkpoint unchanged. -/
theorem checkAttestations_error_marks_counterexample :
    (fun _ => (none : Option Nat)) 7 = none ∧
      (checkDutyAttestation ⟨0, 0, 0, 7⟩ (fun _ => []) [] (fun _ => none)).1 =
        false ∧
      checkAttestations 5 (some [⟨0, 0, 0, 7⟩]) (fun _ => none) (fun _ => none)
          (fun _ => none) 7 = some 5 := by
  refine ⟨rfl, by decide, by decide⟩

theorem checkAttestationsLoop_apply (epoch : Nat) (slotAtts : Nat → List Attestation)
    (fetchSizes : Nat → Option CommitteeSizeMap) :
    ∀ (duties : List ValidatorDuty) (cache : List (Nat × CommitteeSizeMap))
      (checked : Nat → Option Nat) (v : Nat),
      checkAttestationsLoop epoch slotAtts fetchSizes duties cache checked v =
        if v ∈ duties.map (·.validatorIndex) then some epoch else checked v := by
  intro duties
  induction duties with
  | nil => intro cache checked v; simp [checkAttestationsLoop]
  | cons duty rest ih =>
    intro cache checked v
    simp only [checkAttestationsLoop]
    rw [ih]
    by_cases hv : v ∈ rest.map (·.validatorIndex)
    · simp [hv, List.mem_cons]
    · by_cases hd : v = duty.validatorIndex
      · simp [hv, hd, List.mem_cons]
      · simp [hv, hd, List.mem_cons]

/-- C4 (amended): in `checkAttestations`, a validator's checkpoint entry is
set to the epoch as soon as one of its duties has been processed, whether or
not a provider fetch error occurred while evaluating it (an error merely
makes the duty count as "missed" for the cycle); only a failure (or empty
result) of the duties-batch fetch itself leaves every checkpoint unchanged,
and validators with no duty in the batch keep their previous entry. -/
theorem checkAttestations_marks_spec (epoch : Nat)
    (dutiesRes : Option (List ValidatorDuty))
    (fetchAtts : Nat → Option (List Attestation))
    (fetchSizes : Nat → Option CommitteeSizeMap)
    (checked : Nat → Option Nat) (v : Nat) :
    checkAttestations epoch dutiesRes fetchAtts fetchSizes checked v =
      match dutiesRes with
      | none => checked v
      | some duties =>
        if v ∈ duties.map (·.validatorIndex) then some epoch else checked v := by
  cases dutiesRes with
  | none => rfl
  | some duties =>
    by_cases hlen : duties.length = 0
    · have hnil : duties = [] := List.length_eq_zero.mp hlen
      subst hnil
      simp [checkAttestations]
    · show (if duties.length = 0 then checked
          else
            checkAttestationsLoop epoch
              (slotAttsLookup (preloadSlotAttestationsList fetchAtts
                (getSlotRangeForDuties duties).1 (getSlotRangeForDuties duties).2))
              fetchSizes duties [] checked) v = _
      rw [if_neg hlen, checkAttestationsLoop_apply]

/-- C6: starting from all-live, a cycle with offline set `{5}` (tracked set
`{5, 9}`) sends exactly one "went offline" liveness alert with payload `[5]`
and flips the state to some-offline; the next cycle with offline `{5, 9}`
sends no liveness alert although the offline membership changed; the next
cycle with nobody offline sends one "back online" alert whose payload is the
full tracked set and returns the state to all-live. In general the offline
alert fires exactly when the offline set is non-empty and the previous
aggregate state was all-live. -/
theorem liveness_state_machine_spec :
    (runTick ⟨0, false, [], true, false⟩ (some 1)
        ⟨true, true, true, some ["k"], some [5, 9],
          some (fun i => if i = 5 then some false else some true), some [],
          fun _ => none, some []⟩ =
      (⟨1, false, [], false, true⟩, [Alert.livenessNot [5] 1 false])) ∧
      (runTick ⟨1, false, [], false, true⟩ (some 2)
          ⟨true, true, true, some ["k"], some [5, 9], some (fun _ => some false),
            some [], fun _ => none, some []⟩ =
        (⟨2, false, [], false, true⟩, [])) ∧
      (runTick ⟨2, false, [], false, true⟩ (some 3)
          ⟨true, true, true, some ["k"], some [5, 9], some (fun _ => some true),
            some [], fun _ => none, some []⟩ =
        (⟨3, false, [], true, false⟩, [Alert.livenessNot [5, 9] 3 true])) ∧
      (∀ (pal po : Bool) (offline : List Nat) (allLive : Bool)
          (indices : List Nat) (epoch : Nat),
          Alert.livenessNot offline epoch false ∈
              (livenessNotify pal po true offline allLive indices epoch).2.2 ↔
            offline ≠ [] ∧ pal = true) := by
  refine ⟨by decide, by decide, by decide, ?_⟩
  intro pal po offline allLive indices epoch
  unfold livenessNotify
  by_cases h1 : (decide (offline.length > 0) && pal) = true
  · rw [if_pos h1]
    have hne : offline ≠ [] ∧ pal = true := by
      rw [Bool.and_eq_true] at h1
      refine ⟨?_, h1.2⟩
      intro hnil
      subst hnil
      simp at h1
    by_cases h2 : (allLive && true) = true
    · rw [if_pos h2]
      simp [hne]
    · rw [if_neg h2]
      simp [hne]
  · rw [if_neg h1]
    have hni : ¬(offline ≠ [] ∧ pal = true) := by
      intro hc
      apply h1
      rw [Bool.and_eq_true]
      refine ⟨?_, hc.2⟩
      simpa using List.length_pos.mpr hc.1
    by_cases h2 : (allLive && po) = true
    · rw [if_pos h2]
      simp only [List.nil_append, List.mem_singleton]
      constructor
      · intro hmem
        simp at hmem
      · intro hc
        exact absurd hc hni
    · rw [if_neg h2]
      simp [hni]

theorem notifySlashed_mono (w : Nat) :
    ∀ (slashed notified : List Nat), w ∈ notified →
      w ∈ (notifySlashed notified slashed).2 := by
  intro slashed
  induction slashed with
  | nil => intro notified hw; exact hw
  | cons idx rest ih =>
    intro notified hw
    by_cases hmem : idx ∈ notified
    · simpa [notifySlashed, hmem] using ih notified hw
    · simpa [notifySlashed, hmem] using ih (idx :: notified) (List.mem_cons_of_mem idx hw)

theorem notifySlashed_count (v : Nat) :
    ∀ (slashed notified : List Nat),
      (notifySlashed notified slashed).1.count v +
          (if v ∈ (notifySlashed notified slashed).2 then 0 else 1) ≤
        if v ∈ notified then 0 else 1 := by
  intro slashed
  induction slashed with
  | nil =>
    intro notified
    simp [notifySlashed]
  | cons idx rest ih =>
    intro notified
    by_cases hmem : idx ∈ notified
    · simpa [notifySlashed, hmem] using ih notified
    · have hred : notifySlashed notified (idx :: rest) =
          (idx :: (notifySlashed (idx :: notified) rest).1,
            (notifySlashed (idx :: notified) rest).2) := by
        simp [notifySlashed, hmem]
      rw [hred]
      have hstep := ih (idx :: notified)
      by_cases hv : v = idx
      · subst hv
        rw [if_pos (List.mem_cons_self v notified)] at hstep
        have hc0 : (notifySlashed (v :: notified) rest).1.count v = 0 := by omega
        have hm : v ∈ (notifySlashed (v :: notified) rest).2 := by
          by_contra hm2
          rw [if_neg hm2] at hstep
          omega
        dsimp only
        rw [if_neg hmem]
        simp [List.count_cons, hc0, hm]
      · simp only [List.mem_cons, hv, false_or] at hstep
        have hcc : (idx :: (notifySlashed (idx :: notified) rest).1).count v =
            (notifySlashed (idx :: notified) rest).1.count v := by
          simp [List.count_cons, Ne.symm hv]
        dsimp only
        rw [hcc]
        exact hstep

/-- C7: across any sequence of cycles, each validator index is alerted for
slashing at most once: the sum over all cycles of the times `v` appears in
the alert payloads is at most 1 (and 0 when `v` was already in
`SlashedNotified`), and `SlashedNotified` is monotonic — an index present is
never removed by any later cycle. -/
theorem slashing_alert_once_spec (cycles : List (List Nat)) (notified : List Nat)
    (v : Nat) :
    (((runSlashingCycles notified cycles).1.map (fun p => p.count v)).sum ≤
        if v ∈ notified then 0 else 1) ∧
      (∀ w ∈ notified, w ∈ (runSlashingCycles notified cycles).2) := by
  induction cycles generalizing notified with
  | nil =>
    constructor
    · simp [runSlashingCycles]
    · intro w hw
      simpa [runSlashingCycles] using hw
  | cons slashed rest ih =>
    constructor
    · have hstep := notifySlashed_count v slashed notified
      have hrest := (ih (notifySlashed notified slashed).2).1
      simp only [runSlashingCycles, List.map_cons, List.sum_cons]
      by_cases hm : v ∈ (notifySlashed notified slashed).2
      · rw [if_pos hm] at hstep hrest
        by_cases hn : v ∈ notified
        · rw [if_pos hn] at hstep ⊢; omega
        · rw [if_neg hn] at hstep ⊢; omega
      · rw [if_neg hm] at hstep hrest
        by_cases hn : v ∈ notified
        · rw [if_pos hn] at hstep ⊢; omega
        · rw [if_neg hn] at hstep ⊢; omega
    · intro w hw
      simp only [runSlashingCycles]
      exact (ih (notifySlashed notified slashed).2).2 w
        (notifySlashed_mono w slashed notified hw)

/-- C7 witness: validator 4 slashed in two consecutive cycles is alerted at
most once in total; validator 3, already notified, stays in the set. -/
theorem slashing_alert_once_spec_witness :
    (((runSlashingCycles [3] [[4], [4]]).1.map (fun p => p.count 4)).sum ≤
        if 4 ∈ [3] then 0 else 1) ∧
      3 ∈ (runSlashingCycles [3] [[4], [4]]).2 :=
  ⟨(slashing_alert_once_spec [[4], [4]] [3] 4).1,
    (slashing_alert_once_spec [[4], [4]] [3] 4).2 3 (by decide)⟩

/-- C8 counterexample: a cycle-fatal key-set fetch error (pubkeys fetch
returns an error during a cycle triggered by a new epoch) leaves
`lastJustifiedEpoch` changed — the epoch is stored before `performChecks`
runs — contradicting "mutates no engine state except the last-cycle-errored
flag". -/
theorem runTick_fatal_mutates_epoch_counterexample :
    (runTick ⟨0, false, [], true, false⟩ (some 1)
          ⟨true, true, true, none, none, none, none, fun _ => none, none⟩).1.lastJustifiedEpoch ≠
      (⟨0, false, [], true, false⟩ : EngineState).lastJustifiedEpoch := by
  decide

/-- C8 (amended): an epoch-fetch error mutates only `lastRunHadError`; an
unchanged epoch after an error-free cycle is skipped with no mutation; a
cycle-fatal error inside the cycle (key-set fetch, or index-resolution fetch
after a non-empty key set) aborts before any evaluator runs, emitting no
alert and mutating nothing but `lastRunHadError` and the stored
`lastJustifiedEpoch` (set to the fetched epoch before the cycle body); and
when the previous run errored, the next trigger re-runs the full cycle even
though the fetched epoch equals the stored one. -/
theorem cycle_fatal_error_spec :
    (∀ (st : EngineState) (inp : CycleInputs),
        runTick st none inp = ({ st with lastRunHadError := true }, [])) ∧
      (∀ (st : EngineState) (e : Nat) (inp : CycleInputs),
          e = st.lastJustifiedEpoch → st.lastRunHadError = false →
          runTick st (some e) inp = (st, [])) ∧
      (∀ (st : EngineState) (e : Nat) (inp : CycleInputs),
          ¬(e = st.lastJustifiedEpoch ∧ st.lastRunHadError = false) →
          (inp.pubkeys = none ∨
            (∃ pk, inp.pubkeys = some pk ∧ pk.length ≠ 0 ∧ inp.indicesRes = none)) →
          runTick st (some e) inp =
            ({ st with lastJustifiedEpoch := e, lastRunHadError := true }, [])) ∧
      (∀ (st : EngineState) (inp : CycleInputs),
          st.lastRunHadError = true →
          runTick st (some st.lastJustifiedEpoch) inp =
            (let r := performChecks st st.lastJustifiedEpoch inp
             ({ r.2.1 with lastRunHadError := r.1 }, r.2.2))) := by
  refine ⟨fun st inp => rfl, ?_, ?_, ?_⟩
  · intro st e inp h1 h2
    simp only [runTick]
    rw [if_pos ⟨h1, h2⟩]
  · intro st e inp hrun herr
    simp only [runTick]
    rw [if_neg hrun]
    rcases herr with hpk | ⟨pk, hpk, hlen, hidx⟩
    · simp only [performChecks, hpk]
    · simp only [performChecks, hpk, hidx, if_neg hlen]
  · intro st inp hflag
    simp only [runTick]
    rw [if_neg (by simp [hflag])]

/-- C8 witness: the four behaviors at concrete inputs — an epoch-fetch
error, a skip, a key-set fetch error, and a forced re-run after an errored
cycle. -/
theorem cycle_fatal_error_spec_witness :
    (runTick ⟨5, false, [], true, false⟩ none
        ⟨true, true, true, none, none, none, none, fun _ => none, none⟩ =
      ({ (⟨5, false, [], true, false⟩ : EngineState) with lastRunHadError := true }, [])) ∧
      (runTick ⟨5, false, [], true, false⟩ (some 5)
          ⟨true, true, true, none, none, none, none, fun _ => none, none⟩ =
        ((⟨5, false, [], true, false⟩ : EngineState), [])) ∧
      (runTick ⟨0, false, [], true, false⟩ (some 1)
          ⟨true, true, true, none, none, none, none, fun _ => none, none⟩ =
        ({ (⟨0, false, [], true, false⟩ : EngineState) with
            lastJustifiedEpoch := 1, lastRunHadError := true }, [])) ∧
      (runTick ⟨5, true, [], true, false⟩ (some 5)
          ⟨true, true, true, none, none, none, none, fun _ => none, none⟩ =
        (let r := performChecks ⟨5, true, [], true, false⟩ 5
            ⟨true, true, true, none, none, none, none, fun _ => none, none⟩
         ({ r.2.1 with lastRunHadError := r.1 }, r.2.2))) :=
  ⟨cycle_fatal_error_spec.1 ⟨5, false, [], true, false⟩ _,
    cycle_fatal_error_spec.2.1 ⟨5, false, [], true, false⟩ 5 _ rfl rfl,
    cycle_fatal_error_spec.2.2.1 ⟨0, false, [], true, false⟩ 1 _ (by decide)
      (Or.inl rfl),
    cycle_fatal_error_spec.2.2.2 ⟨5, true, [], true, false⟩ _ rfl⟩

theorem checkLivenessLoop_allLive (livenessMap : Nat → Option Bool) :
    ∀ indices : List Nat,
      (checkLivenessLoop livenessMap indices).2.2 =
        (checkLivenessLoop livenessMap indices).1.isEmpty := by
  intro indices
  induction indices with
  | nil => rfl
  | cons idx rest ih =>
    simp only [checkLivenessLoop]
    cases hm : livenessMap idx with
    | none => simp
    | some b =>
      cases b with
      | false => simp
      | true => simpa using ih

/-- C9: within one cycle at most one liveness alert is sent, the two
transition branches are mutually exclusive (because `checkLiveness` reports
`allLive` exactly when its offline list is empty), and after the cycle the
`PreviouslyAllLive` and `PreviouslyOffline` flags are never both true
provided they were not both true before. -/
theorem liveness_flags_invariant_spec (indices : List Nat)
    (livenessMap : Nat → Option Bool) (pal po enabled : Bool) (epoch : Nat)
    (hne : indices ≠ []) (hflags : ¬(pal = true ∧ po = true)) :
    (checkLiveness indices livenessMap).2.2 =
        (checkLiveness indices livenessMap).1.isEmpty ∧
      (livenessNotify pal po enabled (checkLiveness indices livenessMap).1
          (checkLiveness indices livenessMap).2.2 indices epoch).2.2.length ≤ 1 ∧
      ¬((livenessNotify pal po enabled (checkLiveness indices livenessMap).1
            (checkLiveness indices livenessMap).2.2 indices epoch).1 = true ∧
        (livenessNotify pal po enabled (checkLiveness indices livenessMap).1
            (checkLiveness indices livenessMap).2.2 indices epoch).2.1 = true) := by
  have hlen : ¬indices.length = 0 := by
    intro h
    exact hne (List.length_eq_zero.mp h)
  have hall : (checkLiveness indices livenessMap).2.2 =
      (checkLiveness indices livenessMap).1.isEmpty := by
    unfold checkLiveness
    rw [if_neg hlen]
    exact checkLivenessLoop_allLive livenessMap indices
  refine ⟨hall, ?_⟩
  set offline := (checkLiveness indices livenessMap).1 with hoff
  rw [hall]
  unfold livenessNotify
  by_cases h1 : (decide (offline.length > 0) && pal) = true
  · rw [if_pos h1]
    have hoe : offline.isEmpty = false := by
      rw [Bool.and_eq_true] at h1
      cases hb : offline.isEmpty
      · rfl
      · rw [List.isEmpty_iff] at hb
        rw [hb] at h1
        simp at h1
    cases enabled <;> simp [hoe]
  · rw [if_neg h1]
    by_cases h2 : (offline.isEmpty && po) = true
    · rw [if_pos h2]
      constructor
      · cases enabled <;> simp
      · simp
    · rw [if_neg h2]
      constructor
      · simp
      · simpa using hflags

/-- C9 witness: one all-live tracked validator, starting from the all-live
state: at most one alert, and the flags do not end up both true. -/
theorem liveness_flags_invariant_spec_witness :
    (checkLiveness [5] (fun _ => some true)).2.2 =
        (checkLiveness [5] (fun _ => some true)).1.isEmpty ∧
      (livenessNotify true false true (checkLiveness [5] (fun _ => some true)).1
          (checkLiveness [5] (fun _ => some true)).2.2 [5] 1).2.2.length ≤ 1 ∧
      ¬((livenessNotify true false true (checkLiveness [5] (fun _ => some true)).1
            (checkLiveness [5] (fun _ => some true)).2.2 [5] 1).1 = true ∧
        (livenessNotify true false true (checkLiveness [5] (fun _ => some true)).1
            (checkLiveness [5] (fun _ => some true)).2.2 [5] 1).2.1 = true) :=
  liveness_flags_invariant_spec [5] (fun _ => some true) true false true 1
    (by decide) (by decide)
